import Mathlib

/-!
Verification of the EigenSolver design of the applied-machine-learning
repository (eigendecomposition notebook) and of the pseudorandom-number
generator demonstrations (random-numbers notebook).

The eigendecomposition notebook delegates the numerical work to
`numpy.linalg.eig` / `numpy.linalg.inv`; those library routines are not
part of the repository, so the `decompose` contract and the error
behaviour of `inv` are modelled from the specification, while the
reconstruction formula `B = Q.dot(L).dot(R)` is translated directly from
the notebook cell.  Matrices are real, eigenpairs are complex-valued per
the specification.
-/

namespace AppliedML

open scoped BigOperators

/-- The two error kinds of the EigenSolver design (spec section 7). -/
inductive EigenError where
  | dimensionError
  | singularMatrixError
deriving DecidableEq, Repr

/-- A complete EigenSet for an n-by-n matrix, in the layout returned by
`values, vectors = eig(A)`: an array of n eigenvalues and an n-by-n matrix
whose j-th column is the eigenvector paired with the j-th eigenvalue.
Entries are complex because some real matrices only decompose over the
complex numbers (spec section 3). -/
structure EigenSet (n : ℕ) where
  values : Fin n → ℂ
  vectors : Matrix (Fin n) (Fin n) ℂ

/-- The j-th column of a square matrix, as a vector (`vectors[:, j]`). -/
def colVec {n : ℕ} (Q : Matrix (Fin n) (Fin n) ℂ) (j : Fin n) : Fin n → ℂ :=
  fun i => Q i j

/-- Squared Euclidean norm of a complex vector. -/
def vecNormSq {n : ℕ} (v : Fin n → ℂ) : ℝ :=
  ∑ i, Complex.normSq (v i)

/-- Euclidean norm of a complex vector. -/
noncomputable def vecNorm {n : ℕ} (v : Fin n → ℂ) : ℝ :=
  Real.sqrt (vecNormSq v)

/-- A real matrix viewed as a complex matrix. -/
def ofRealM {n : ℕ} (A : Matrix (Fin n) (Fin n) ℝ) : Matrix (Fin n) (Fin n) ℂ :=
  A.map Complex.ofReal

/-- Modelled from the spec: the contract of `decompose(A)` (spec section
4.1), whose algorithm is delegated to the external `numpy.linalg.eig` and
is not part of the repository.  An EigenSet is a valid decomposition of A
when every returned pair (lambda, v) satisfies the eigenvalue equation
A.v = lambda.v exactly and every eigenvector has unit Euclidean length. -/
def DecomposeOk {n : ℕ} (A : Matrix (Fin n) (Fin n) ℝ) (es : EigenSet n) : Prop :=
  ∀ j : Fin n,
    (ofRealM A).mulVec (colVec es.vectors j) = es.values j • colVec es.vectors j
    ∧ vecNorm (colVec es.vectors j) = 1

/-- The absolute tolerance used by `verify` (spec section 4.1: "e.g. 1e-6"). -/
noncomputable def verifyTol : ℝ := 1e-6

/-- Modelled from the spec: `verify(A, (lambda, v))` (spec section 4.1)
holds exactly when the residual norm of the eigenvalue equation,
the norm of A.v - lambda.v, is within the tolerance. -/
noncomputable def verify {n : ℕ} (A : Matrix (Fin n) (Fin n) ℝ)
    (lam : ℂ) (v : Fin n → ℂ) : Prop :=
  vecNorm ((ofRealM A).mulVec v - lam • v) ≤ verifyTol

/-- `reconstruct`, translated from the notebook cell:
`Q = vectors; R = inv(Q); L = diag(values); B = Q.dot(L).dot(R)`. -/
noncomputable def reconstruct {n : ℕ} (es : EigenSet n) :
    Matrix (Fin n) (Fin n) ℂ :=
  let Q := es.vectors
  let R := Q⁻¹
  let L := Matrix.diagonal es.values
  Q * L * R

/-- Written from the spec's words (spec section 4.1, reconstruct
algorithm): form Q, the matrix whose columns are the eigenvectors in the
EigenSet's order; form D, the diagonal matrix of the eigenvalues in
matching order; compute B = Q * D * Q⁻¹. -/
noncomputable def reconstructSpec {n : ℕ} (es : EigenSet n) :
    Matrix (Fin n) (Fin n) ℂ :=
  let Q : Matrix (Fin n) (Fin n) ℂ := Matrix.of fun i j => colVec es.vectors j i
  let D : Matrix (Fin n) (Fin n) ℂ := Matrix.of fun i j => if i = j then es.values i else 0
  Q * D * Q⁻¹

/-- A raw, possibly non-square matrix as supplied by a caller. -/
structure RawMatrix where
  rows : List (List ℝ)

/-- A raw matrix is square when every row has as many entries as there are rows. -/
def RawMatrix.isSquare (A : RawMatrix) : Bool :=
  A.rows.all fun r => r.length == A.rows.length

/-- The square matrix carried by a raw matrix (rows in order; entries
beyond a row's length default to 0 and are never reached when the raw
matrix is square). -/
def RawMatrix.toMatrix (A : RawMatrix) :
    Matrix (Fin A.rows.length) (Fin A.rows.length) ℝ :=
  fun i j => (A.rows.get i).getD (j : ℕ) 0

/-- Modelled from the spec: `decompose` fails with DimensionError when the
input is not square, and otherwise delegates to a dense eigenvalue solver
(the external `numpy.linalg.eig`, abstracted as the `solver` argument;
spec section 4.1: the exact numerical method is an implementation
detail). -/
def decompose (solver : (k : ℕ) → Matrix (Fin k) (Fin k) ℝ → EigenSet k)
    (A : RawMatrix) : Except EigenError ((k : ℕ) × EigenSet k) :=
  if A.isSquare then
    Except.ok ⟨A.rows.length, solver A.rows.length A.toMatrix⟩
  else
    Except.error EigenError.dimensionError

open Classical in
/-- Modelled from the spec: `numpy.linalg.inv` (external library code)
raises on a singular matrix, so reconstruction fails with
SingularMatrixError exactly when the eigenvector matrix Q is not
invertible (spec section 4.1). -/
noncomputable def reconstructE {n : ℕ} (es : EigenSet n) :
    Except EigenError (Matrix (Fin n) (Fin n) ℂ) :=
  if IsUnit es.vectors.det then
    Except.ok (reconstruct es)
  else
    Except.error EigenError.singularMatrixError

/-! ### Basic lemmas about the embedding -/

/-- The norm of the zero vector is zero. -/
theorem vecNorm_zero {n : ℕ} : vecNorm (0 : Fin n → ℂ) = 0 := by
  simp [vecNorm, vecNormSq]

/-- A vector of norm one is nonzero. -/
theorem ne_zero_of_vecNorm_one {n : ℕ} {v : Fin n → ℂ} (h : vecNorm v = 1) :
    v ≠ 0 := by
  intro h0
  rw [h0, vecNorm_zero] at h
  exact zero_ne_one h

/-- Exact diagonalization: if every column of `es.vectors` is an
eigenvector of A for the matching eigenvalue and the eigenvector matrix is
invertible, then the reconstruction Q * L * Q⁻¹ recovers A exactly. -/
theorem reconstruct_eq {n : ℕ} (A : Matrix (Fin n) (Fin n) ℝ) (es : EigenSet n)
    (h : DecomposeOk A es) (hQ : IsUnit es.vectors.det) :
    reconstruct es = ofRealM A := by
  have key : es.vectors * Matrix.diagonal es.values = ofRealM A * es.vectors := by
    ext i j
    have hcol := congrFun (h j).1 i
    simp only [Matrix.mulVec, Matrix.dotProduct, colVec, Pi.smul_apply,
      smul_eq_mul] at hcol
    rw [Matrix.mul_diagonal, Matrix.mul_apply, mul_comm]
    exact hcol.symm
  calc es.vectors * Matrix.diagonal es.values * es.vectors⁻¹
      = ofRealM A * es.vectors * es.vectors⁻¹ := by rw [key]
    _ = ofRealM A * (es.vectors * es.vectors⁻¹) := by rw [Matrix.mul_assoc]
    _ = ofRealM A := by rw [Matrix.mul_nonsing_inv _ hQ, Matrix.mul_one]

/-! ### Concrete instances used as witnesses -/

/-- The 1-by-1 matrix [[2]]. -/
def Aone : Matrix (Fin 1) (Fin 1) ℝ := !![2]

/-- Eigendecomposition of [[2]]: eigenvalue 2 with eigenvector [1]. -/
def esOne : EigenSet 1 := ⟨fun _ => 2, !![1]⟩

/-- The decomposition contract holds for the concrete pair `Aone`, `esOne`. -/
theorem decomposeOk_one : DecomposeOk Aone esOne := by
  intro j
  constructor
  · funext i
    fin_cases i <;> fin_cases j <;>
      simp [ofRealM, Aone, esOne, colVec, Matrix.mulVec, Matrix.dotProduct,
        Fin.sum_univ_one]
  · fin_cases j
    simp [vecNorm, vecNormSq, esOne, colVec, Fin.sum_univ_one]

/-- The eigenvector matrix of `esOne` is invertible. -/
theorem esOne_det_isUnit : IsUnit esOne.vectors.det := by
  have : esOne.vectors.det = 1 := by
    simp [esOne, Matrix.det_fin_one]
  rw [this]
  exact isUnit_one

/-! ### Claim theorems C1 to C6 -/

/-- Claim C1: for every square real matrix A and every eigenpair (lambda, v)
returned by decompose(A), the eigenvalue equation holds within tolerance,
and therefore verify(A, (lambda, v)) is true; moreover verify holds exactly
when the residual norm of A.v - lambda.v is within the 1e-6 tolerance. -/
theorem verify_of_decompose {n : ℕ} (A : Matrix (Fin n) (Fin n) ℝ)
    (es : EigenSet n) (h : DecomposeOk A es) (j : Fin n) :
    verify A (es.values j) (colVec es.vectors j)
    ∧ (∀ (lam : ℂ) (v : Fin n → ℂ),
        verify A lam v ↔ vecNorm ((ofRealM A).mulVec v - lam • v) ≤ 1e-6) := by
  constructor
  · unfold verify
    rw [(h j).1, sub_self, vecNorm_zero]
    unfold verifyTol
    norm_num
  · intro lam v
    unfold verify verifyTol
    exact Iff.rfl

/-- Witness for C1 at the concrete pair `Aone`, `esOne`. -/
theorem verify_of_decompose_witness :
    verify Aone (esOne.values 0) (colVec esOne.vectors 0) :=
  (verify_of_decompose Aone esOne decomposeOk_one 0).1

/-- Claim C2: for every diagonalizable square matrix A (the eigenvector
matrix of its decomposition is invertible), reconstruction round-trips:
reconstruct(decompose(A)) equals A element-wise within tolerance 1e-6. -/
theorem reconstruct_roundtrip {n : ℕ} (A : Matrix (Fin n) (Fin n) ℝ)
    (es : EigenSet n) (h : DecomposeOk A es) (hQ : IsUnit es.vectors.det) :
    ∀ i j, Complex.abs (reconstruct es i j - (A i j : ℂ)) ≤ 1e-6 := by
  intro i j
  rw [reconstruct_eq A es h hQ]
  simp only [ofRealM, Matrix.map_apply, sub_self, map_zero]
  norm_num

/-- Witness for C2 at the concrete pair `Aone`, `esOne`. -/
theorem reconstruct_roundtrip_witness :
    DecomposeOk Aone esOne ∧ IsUnit esOne.vectors.det
    ∧ ∀ i j, Complex.abs (reconstruct esOne i j - (Aone i j : ℂ)) ≤ 1e-6 :=
  ⟨decomposeOk_one, esOne_det_isUnit,
    reconstruct_roundtrip Aone esOne decomposeOk_one esOne_det_isUnit⟩

/-- Claim C3: reconstruct computes its result exactly as B = Q * D * Q⁻¹,
where Q has the eigenvectors as columns in the EigenSet's order and D is
the diagonal matrix of the eigenvalues in matching positional order (the
i-th diagonal entry is the i-th eigenvalue, off-diagonal entries are 0). -/
theorem reconstruct_formula {n : ℕ} (es : EigenSet n) :
    reconstruct es = es.vectors * Matrix.diagonal es.values * es.vectors⁻¹
    ∧ reconstruct es = reconstructSpec es
    ∧ (∀ j, (fun i => es.vectors i j) = colVec es.vectors j)
    ∧ (∀ j, Matrix.diagonal es.values j j = es.values j)
    ∧ (∀ i j, i ≠ j → Matrix.diagonal es.values i j = 0) := by
  exact ⟨rfl, rfl, fun j => rfl, fun j => Matrix.diagonal_apply_eq _ j,
    fun i j hij => Matrix.diagonal_apply_ne _ hij⟩

/-- A small concrete EigenSet used to witness C3. -/
def esDiag : EigenSet 2 := ⟨![3, 5], 1⟩

/-- Witness for C3 at the concrete EigenSet `esDiag`. -/
theorem reconstruct_formula_witness :
    reconstruct esDiag = reconstructSpec esDiag
    ∧ Matrix.diagonal esDiag.values 0 1 = 0 :=
  ⟨(reconstruct_formula esDiag).2.1,
    (reconstruct_formula esDiag).2.2.2.2 0 1 (by decide)⟩

/-- Claim C4: every eigenvector v returned by decompose has unit Euclidean
length, exactly and hence within tolerance. -/
theorem decompose_unit_norm {n : ℕ} (A : Matrix (Fin n) (Fin n) ℝ)
    (es : EigenSet n) (h : DecomposeOk A es) (j : Fin n) :
    vecNorm (colVec es.vectors j) = 1
    ∧ |vecNorm (colVec es.vectors j) - 1| ≤ 1e-6 := by
  refine ⟨(h j).2, ?_⟩
  rw [(h j).2]
  norm_num

/-- Witness for C4 at the concrete pair `Aone`, `esOne`. -/
theorem decompose_unit_norm_witness :
    vecNorm (colVec esOne.vectors 0) = 1 :=
  (decompose_unit_norm Aone esOne decomposeOk_one 0).1

/-- Claim C5: decompose applied to a non-square input fails with
DimensionError, whatever the underlying solver, and no (partial) result is
returned on failure. -/
theorem decompose_nonsquare {solver : (k : ℕ) → Matrix (Fin k) (Fin k) ℝ → EigenSet k}
    (A : RawMatrix) (h : A.isSquare = false) :
    decompose solver A = Except.error EigenError.dimensionError
    ∧ ∀ r, decompose solver A ≠ Except.ok r := by
  constructor
  · simp [decompose, h]
  · intro r hr
    rw [decompose, h] at hr
    simp at hr

/-- A constant solver standing in for an arbitrary eigenvalue algorithm. -/
def trivSolver : (k : ℕ) → Matrix (Fin k) (Fin k) ℝ → EigenSet k :=
  fun _ _ => ⟨fun _ => 0, 0⟩

/-- A concrete 2-by-3 (non-square) raw matrix. -/
def rawNonSquare : RawMatrix := ⟨[[1, 2, 3], [4, 5, 6]]⟩

/-- Witness for C5 at the concrete non-square matrix `rawNonSquare`. -/
theorem decompose_nonsquare_witness :
    rawNonSquare.isSquare = false
    ∧ decompose trivSolver rawNonSquare = Except.error EigenError.dimensionError := by
  have h : rawNonSquare.isSquare = false := by
    simp [rawNonSquare, RawMatrix.isSquare]
  exact ⟨h, (decompose_nonsquare rawNonSquare h).1⟩

/-- Claim C6: reconstruct applied to an EigenSet whose eigenvectors are
linearly dependent (some nonzero combination of the columns of Q is zero,
so Q is not invertible) fails with SingularMatrixError, and no (partial)
result is returned on failure. -/
theorem reconstruct_dependent_error {n : ℕ} (es : EigenSet n)
    (h : ∃ c : Fin n → ℂ, c ≠ 0 ∧ es.vectors.mulVec c = 0) :
    reconstructE es = Except.error EigenError.singularMatrixError
    ∧ ∀ B, reconstructE es ≠ Except.ok B := by
  have hdet : es.vectors.det = 0 := by
    rw [← Matrix.exists_mulVec_eq_zero_iff]
    obtain ⟨c, hc0, hc⟩ := h
    exact ⟨c, hc0, hc⟩
  have hnu : ¬ IsUnit es.vectors.det := by
    rw [hdet]
    exact not_isUnit_zero
  constructor
  · simp [reconstructE, hnu, hdet]
  · intro B hB
    simp [reconstructE, hnu, hdet] at hB

/-- A concrete EigenSet with linearly dependent eigenvectors (the two
columns are both (1, 0)). -/
def esDep : EigenSet 2 := ⟨fun _ => 1, !![1, 1; 0, 0]⟩

/-- The columns of `esDep.vectors` are linearly dependent. -/
theorem esDep_dependent :
    ∃ c : Fin 2 → ℂ, c ≠ 0 ∧ esDep.vectors.mulVec c = 0 := by
  refine ⟨![1, -1], ?_, ?_⟩
  · intro h
    have := congrFun h 0
    simp at this
  · funext i
    fin_cases i <;>
      simp [esDep, Matrix.mulVec, Matrix.dotProduct, Fin.sum_univ_two]

/-- Witness for C6 at the concrete EigenSet `esDep`. -/
theorem reconstruct_dependent_error_witness :
    (∃ c : Fin 2 → ℂ, c ≠ 0 ∧ esDep.vectors.mulVec c = 0)
    ∧ reconstructE esDep = Except.error EigenError.singularMatrixError :=
  ⟨esDep_dependent, (reconstruct_dependent_error esDep esDep_dependent).1⟩

/-! ### The concrete scenario: A = [[1,2,3],[4,5,6],[7,8,9]]

The characteristic polynomial of this matrix is
t^3 - 15 t^2 - 18 t, so the eigenvalues are 0 and (15 ± sqrt 297) / 2,
numerically 16.1168... and -1.1168..., matching the notebook output.
For every eigenvalue t, the cross product of the first two rows of
A - t I, namely (3 t - 3, 6 t + 6, t^2 - 6 t - 3), spans the eigenspace;
normalizing it gives the unit eigenvectors. -/

/-- The square root of 297, the discriminant root of the quadratic factor. -/
noncomputable def sq297 : ℝ := Real.sqrt 297

/-- The large eigenvalue (15 + sqrt 297) / 2 of the concrete matrix. -/
noncomputable def eva : ℝ := (15 + sq297) / 2

/-- The negative eigenvalue (15 - sqrt 297) / 2 of the concrete matrix. -/
noncomputable def evb : ℝ := (15 - sq297) / 2

/-- The concrete matrix of the notebook. -/
def A7 : Matrix (Fin 3) (Fin 3) ℝ := !![1, 2, 3; 4, 5, 6; 7, 8, 9]

/-- Unnormalized eigenvector of `A7` for eigenvalue `lam`: the cross
product of the first two rows of A7 - lam I. -/
noncomputable def w7 (lam : ℝ) : Fin 3 → ℝ :=
  ![3 * lam - 3, 6 * lam + 6, lam ^ 2 - 6 * lam - 3]

/-- The three eigenvalues of `A7` in the order used by the EigenSet. -/
noncomputable def lams7 : Fin 3 → ℝ := ![0, eva, evb]

/-- Euclidean norm of the unnormalized eigenvector for `lam`. -/
noncomputable def nrm7 (lam : ℝ) : ℝ := Real.sqrt (∑ i, (w7 lam i) ^ 2)

/-- Unit eigenvector of `A7` for eigenvalue `lam`. -/
noncomputable def unit7 (lam : ℝ) : Fin 3 → ℂ :=
  fun i => (((nrm7 lam)⁻¹ * w7 lam i : ℝ) : ℂ)

/-- A concrete eigendecomposition of `A7`, with the eigenvalues in the
order 0, eva, evb and the matching unit eigenvectors as columns. -/
noncomputable def es7 : EigenSet 3 :=
  ⟨fun j => ((lams7 j : ℝ) : ℂ), Matrix.of fun i j => unit7 (lams7 j) i⟩

/-- The matrix of unnormalized eigenvectors, column j for eigenvalue
`lams7 j`. -/
noncomputable def W7 : Matrix (Fin 3) (Fin 3) ℝ :=
  Matrix.of fun i j => w7 (lams7 j) i

theorem sq297_sq : sq297 ^ 2 = 297 :=
  Real.sq_sqrt (by norm_num)

theorem sq297_pos : 0 < sq297 :=
  Real.sqrt_pos.mpr (by norm_num)

theorem sq297_lt : sq297 < 17.2337 := by
  nlinarith [sq297_sq, Real.sqrt_nonneg (297 : ℝ)]

theorem lt_sq297 : 17.2336 < sq297 := by
  unfold sq297
  rw [Real.lt_sqrt (by norm_num)]
  norm_num

theorem eva_pos : 0 < eva := by
  unfold eva
  linarith [sq297_pos]

theorem evb_lt_neg_one : evb < -1 := by
  unfold evb
  linarith [lt_sq297]

theorem eva_sq : eva ^ 2 = 15 * eva + 18 := by
  unfold eva
  linear_combination (1 / 4 : ℝ) * sq297_sq

theorem evb_sq : evb ^ 2 = 15 * evb + 18 := by
  unfold evb
  linear_combination (1 / 4 : ℝ) * sq297_sq

theorem eva_add_evb : eva + evb = 15 := by
  unfold eva evb
  ring

theorem eva_mul_evb : eva * evb = -18 := by
  unfold eva evb
  linear_combination (-1 / 4 : ℝ) * sq297_sq

/-- Any root of the quadratic factor satisfies the characteristic cubic. -/
theorem cubic_of_sq {lam : ℝ} (h : lam ^ 2 = 15 * lam + 18) :
    lam ^ 3 = 15 * lam ^ 2 + 18 * lam := by
  linear_combination lam * h

/-- Each `lams7 j` satisfies the characteristic cubic of `A7`. -/
theorem lams7_cubic (j : Fin 3) :
    (lams7 j) ^ 3 = 15 * (lams7 j) ^ 2 + 18 * (lams7 j) := by
  fin_cases j
  · simp [lams7]
  · simpa [lams7] using cubic_of_sq eva_sq
  · simpa [lams7] using cubic_of_sq evb_sq

/-- The eigenvalue equation for the unnormalized eigenvector, over ℂ. -/
theorem mulVec_w7 (lam : ℝ) (h : lam ^ 3 = 15 * lam ^ 2 + 18 * lam) :
    (ofRealM A7).mulVec (fun i => (w7 lam i : ℂ))
      = (lam : ℂ) • fun i => (w7 lam i : ℂ) := by
  have hc : (lam : ℂ) ^ 3 = 15 * (lam : ℂ) ^ 2 + 18 * (lam : ℂ) := by
    have := congrArg (fun x : ℝ => (x : ℂ)) h
    push_cast at this
    exact this
  funext i
  fin_cases i
  · simp [ofRealM, A7, w7, Matrix.mulVec, Matrix.dotProduct, Fin.sum_univ_three]
    push_cast
    ring
  · simp [ofRealM, A7, w7, Matrix.mulVec, Matrix.dotProduct, Fin.sum_univ_three]
    push_cast
    ring
  · simp [ofRealM, A7, w7, Matrix.mulVec, Matrix.dotProduct, Fin.sum_univ_three]
    push_cast
    linear_combination -hc

/-- None of the unnormalized eigenvectors is the zero vector. -/
theorem w7_ne_zero (j : Fin 3) : w7 (lams7 j) ≠ 0 := by
  fin_cases j
  · intro h
    have h0 := congrFun h 0
    simp [w7, lams7] at h0
  · intro h
    have h1 := congrFun h 1
    simp [w7, lams7] at h1
    linarith [eva_pos, h1]
  · intro h
    have h1 := congrFun h 1
    simp [w7, lams7] at h1
    linarith [evb_lt_neg_one, h1]

/-- The norm of a nonzero unnormalized eigenvector is positive. -/
theorem nrm7_pos {lam : ℝ} (h : w7 lam ≠ 0) : 0 < nrm7 lam := by
  unfold nrm7
  apply Real.sqrt_pos.mpr
  obtain ⟨i, hi⟩ := Function.ne_iff.mp h
  apply Finset.sum_pos'
  · intro k _
    positivity
  · refine ⟨i, Finset.mem_univ i, ?_⟩
    have : w7 lam i ≠ 0 := hi
    positivity

/-- The normalized eigenvector has unit Euclidean norm. -/
theorem vecNorm_unit7 {lam : ℝ} (h : w7 lam ≠ 0) : vecNorm (unit7 lam) = 1 := by
  have hp := nrm7_pos h
  have hsq : (nrm7 lam) ^ 2 = ∑ i, (w7 lam i) ^ 2 := by
    unfold nrm7
    exact Real.sq_sqrt (by positivity)
  unfold vecNorm vecNormSq unit7
  have hsum : (∑ i, Complex.normSq ((((nrm7 lam)⁻¹ * w7 lam i : ℝ)) : ℂ)) = 1 := by
    have expand : (∑ i, Complex.normSq ((((nrm7 lam)⁻¹ * w7 lam i : ℝ)) : ℂ))
        = ((nrm7 lam)⁻¹) ^ 2 * ∑ i, (w7 lam i) ^ 2 := by
      rw [Finset.mul_sum]
      apply Finset.sum_congr rfl
      intro i _
      rw [Complex.normSq_ofReal]
      ring
    rw [expand, ← hsq]
    field_simp
  rw [hsum, Real.sqrt_one]

/-- The eigenvalue equation for the normalized eigenvector. -/
theorem mulVec_unit7 (lam : ℝ) (h : lam ^ 3 = 15 * lam ^ 2 + 18 * lam) :
    (ofRealM A7).mulVec (unit7 lam) = (lam : ℂ) • unit7 lam := by
  have hrepr : unit7 lam
      = (((nrm7 lam)⁻¹ : ℝ) : ℂ) • (fun i => (w7 lam i : ℂ)) := by
    funext i
    simp [unit7]
  rw [hrepr, Matrix.mulVec_smul, mulVec_w7 lam h, smul_comm]

/-- The concrete EigenSet `es7` satisfies the decomposition contract. -/
theorem decomposeOk_es7 : DecomposeOk A7 es7 := by
  intro j
  have hcol : colVec es7.vectors j = unit7 (lams7 j) := rfl
  constructor
  · rw [hcol]
    exact mulVec_unit7 (lams7 j) (lams7_cubic j)
  · rw [hcol]
    exact vecNorm_unit7 (w7_ne_zero j)

/-- The determinant of the unnormalized eigenvector matrix factors through
the Vandermonde of the three eigenvalues. -/
theorem detW7_factor : W7.det = -36 * (eva * evb * (evb - eva)) := by
  simp [W7, w7, lams7, Matrix.det_fin_three]
  ring

/-- The determinant of the unnormalized eigenvector matrix is -648 sqrt 297. -/
theorem detW7 : W7.det = -648 * sq297 := by
  rw [detW7_factor]
  have hd : evb - eva = -sq297 := by
    unfold eva evb
    ring
  rw [eva_mul_evb, hd]
  ring

/-- The eigenvector matrix of `es7` is invertible. -/
theorem es7_det_isUnit : IsUnit es7.vectors.det := by
  rw [isUnit_iff_ne_zero]
  have hdet : es7.vectors.det
      = ((((nrm7 (lams7 0))⁻¹ * (nrm7 (lams7 1))⁻¹ * (nrm7 (lams7 2))⁻¹) * W7.det : ℝ) : ℂ) := by
    simp [es7, unit7, W7, Matrix.det_fin_three, Matrix.of_apply]
    push_cast
    ring
  rw [hdet, Complex.ofReal_ne_zero]
  have h0 := (nrm7_pos (w7_ne_zero 0)).ne'
  have h1 := (nrm7_pos (w7_ne_zero 1)).ne'
  have h2 := (nrm7_pos (w7_ne_zero 2)).ne'
  have hW : W7.det ≠ 0 := by
    rw [detW7]
    nlinarith [sq297_pos]
  exact mul_ne_zero (mul_ne_zero (mul_ne_zero (inv_ne_zero h0) (inv_ne_zero h1)) (inv_ne_zero h2)) hW

/-- Reconstruction from `es7` recovers `A7` exactly. -/
theorem reconstruct_es7 : reconstruct es7 = ofRealM A7 :=
  reconstruct_eq A7 es7 decomposeOk_es7 es7_det_isUnit

/-- Every eigenvalue of any contract-satisfying decomposition of `A7` is
0, eva or evb: a unit eigenvector is nonzero, so A7 - lam I is singular
and lam is a root of the characteristic cubic. -/
theorem eigenvalue_mem (es : EigenSet 3) (h : DecomposeOk A7 es) (j : Fin 3) :
    es.values j = 0 ∨ es.values j = ((eva : ℝ) : ℂ) ∨ es.values j = ((evb : ℝ) : ℂ) := by
  obtain ⟨heq, hn⟩ := h j
  have hv0 : colVec es.vectors j ≠ 0 := ne_zero_of_vecNorm_one hn
  have hker : (ofRealM A7 - es.values j • 1).mulVec (colVec es.vectors j) = 0 := by
    rw [Matrix.sub_mulVec, heq, Matrix.smul_mulVec_assoc, Matrix.one_mulVec, sub_self]
  have hdet : (ofRealM A7 - es.values j • 1).det = 0 :=
    Matrix.exists_mulVec_eq_zero_iff.mp ⟨colVec es.vectors j, hv0, hker⟩
  set lam := es.values j with hlam
  have hpoly : lam ^ 3 - 15 * lam ^ 2 - 18 * lam = 0 := by
    have hexp : (ofRealM A7 - lam • 1).det = -(lam ^ 3 - 15 * lam ^ 2 - 18 * lam) := by
      simp [ofRealM, A7, Matrix.det_fin_three, Matrix.sub_apply, Matrix.smul_apply,
        Matrix.one_apply, Matrix.map_apply]
      push_cast
      ring
    rw [hexp] at hdet
    exact neg_eq_zero.mp hdet
  have hsumC : ((eva : ℝ) : ℂ) + ((evb : ℝ) : ℂ) = 15 := by
    have := congrArg (fun x : ℝ => (x : ℂ)) eva_add_evb
    push_cast at this
    exact this
  have habC : ((eva : ℝ) : ℂ) * ((evb : ℝ) : ℂ) = -18 := by
    have := congrArg (fun x : ℝ => (x : ℂ)) eva_mul_evb
    push_cast at this
    exact this
  have hfac : lam * ((lam - ((eva : ℝ) : ℂ)) * (lam - ((evb : ℝ) : ℂ))) = 0 := by
    linear_combination hpoly - lam ^ 2 * hsumC + lam * habC
  rcases mul_eq_zero.mp hfac with h1 | h2
  · exact Or.inl h1
  · rcases mul_eq_zero.mp h2 with h3 | h4
    · exact Or.inr (Or.inl (sub_eq_zero.mp h3))
    · exact Or.inr (Or.inr (sub_eq_zero.mp h4))

/-- eva is within 1e-4 of the printed eigenvalue 16.1168. -/
theorem eva_approx : |eva - 16.1168| ≤ 1e-4 := by
  rw [abs_le]
  constructor
  · unfold eva
    nlinarith [lt_sq297]
  · unfold eva
    nlinarith [sq297_lt]

/-- evb is within 1e-4 of the printed eigenvalue -1.1168. -/
theorem evb_approx : |evb - (-1.1168)| ≤ 1e-4 := by
  rw [abs_le]
  constructor
  · unfold evb
    nlinarith [sq297_lt]
  · unfold evb
    nlinarith [lt_sq297]

/-- The three eigenvalues of the concrete scenario are pairwise distinct. -/
theorem lams7_distinct : eva ≠ 0 ∧ evb ≠ 0 ∧ eva ≠ evb := by
  refine ⟨?_, ?_, ?_⟩
  · unfold eva
    nlinarith [lt_sq297]
  · unfold evb
    nlinarith [lt_sq297]
  · unfold eva evb
    nlinarith [lt_sq297]

/-- Claim C7: for A = [[1,2,3],[4,5,6],[7,8,9]], every eigenvalue of any
contract-satisfying decomposition lies in the set {0, eva, evb}; eva and
evb are within 1e-4 of the printed values 16.1168 and -1.1168; the
concrete decomposition es7 satisfies the contract, its eigenvalue list is
exactly (0, eva, evb) with the three values pairwise distinct, and
reconstruction from it recovers A element-wise within 1e-6. -/
theorem eigen_concrete_scenario :
    (∀ es : EigenSet 3, DecomposeOk A7 es → ∀ j,
        es.values j = 0 ∨ es.values j = ((eva : ℝ) : ℂ) ∨ es.values j = ((evb : ℝ) : ℂ))
    ∧ |eva - 16.1168| ≤ 1e-4
    ∧ |evb - (-1.1168)| ≤ 1e-4
    ∧ DecomposeOk A7 es7
    ∧ (es7.values 0 = 0 ∧ es7.values 1 = ((eva : ℝ) : ℂ) ∧ es7.values 2 = ((evb : ℝ) : ℂ))
    ∧ (eva ≠ 0 ∧ evb ≠ 0 ∧ eva ≠ evb)
    ∧ ∀ i j, Complex.abs (reconstruct es7 i j - (A7 i j : ℂ)) ≤ 1e-6 := by
  refine ⟨eigenvalue_mem, eva_approx, evb_approx, decomposeOk_es7, ?_, lams7_distinct, ?_⟩
  · refine ⟨?_, ?_, ?_⟩ <;> simp [es7, lams7]
  · intro i j
    rw [reconstruct_es7]
    simp only [ofRealM, Matrix.map_apply, sub_self, map_zero]
    norm_num

/-- Witness for C7: the first eigenvalue of the concrete decomposition
es7 is one of the three roots, by the universal part of the claim applied
at the concrete matrix and decomposition. -/
theorem eigen_concrete_scenario_witness :
    es7.values 0 = 0 ∨ es7.values 0 = ((eva : ℝ) : ℂ) ∨ es7.values 0 = ((evb : ℝ) : ℂ) :=
  eigen_concrete_scenario.1 es7 decomposeOk_es7 0

/-- Claim C8: reconstruction can succeed even though the input matrix is
singular: A7 has determinant 0 (one eigenvalue is 0), yet reconstructE on
es7 returns a result (no SingularMatrixError) that matches A7 within
1e-6, because the error depends only on the invertibility of the
eigenvector matrix Q, never on the invertibility of the source matrix. -/
theorem reconstruct_singular_input :
    A7.det = 0
    ∧ reconstructE es7 = Except.ok (reconstruct es7)
    ∧ (∀ i j, Complex.abs (reconstruct es7 i j - (A7 i j : ℂ)) ≤ 1e-6)
    ∧ (∀ (n : ℕ) (es : EigenSet n), IsUnit es.vectors.det →
        reconstructE es = Except.ok (reconstruct es)) := by
  refine ⟨?_, ?_, ?_, ?_⟩
  · simp [A7, Matrix.det_fin_three]
    norm_num
  · simp [reconstructE, es7_det_isUnit]
    exact isUnit_iff_ne_zero.mp es7_det_isUnit
  · intro i j
    rw [reconstruct_es7]
    simp only [ofRealM, Matrix.map_apply, sub_self, map_zero]
    norm_num
  · intro n es hQ
    simp [reconstructE, hQ]
    exact isUnit_iff_ne_zero.mp hQ

/-- Witness for C8: the general success rule of reconstructE applied at
the concrete invertible EigenSet `esOne`. -/
theorem reconstruct_singular_input_witness :
    reconstructE esOne = Except.ok (reconstruct esOne) :=
  reconstruct_singular_input.2.2.2 1 esOne esOne_det_isUnit

/-! ### Pseudorandom number generators (random-numbers notebook)

The Mersenne Twister implementations of the Python standard library and
of NumPy are external library code; the notebook demonstrates their
seeding behaviour.  They are modelled, per the notebook's own
characterization, as deterministic generators: an internal state, a
seeding function from an integer seed, and a step function producing one
output and the next state. -/

/-- Modelled from the spec: a pseudorandom number generator as described
in the random-numbers notebook — "a sample of numbers that look close to
random, but were generated using a deterministic process", whose sequence
"is deterministic and is seeded with an initial number".  `seedState`
resets the internal state from a seed; `next` emits one value and steps
the state. -/
structure PRNG (S : Type) (O : Type) where
  seedState : ℕ → S
  next : S → O × S

/-- Draw k successive values, threading the generator state. -/
def PRNG.draw {S O : Type} (g : PRNG S O) : ℕ → S → List O × S
  | 0, st => ([], st)
  | k + 1, st =>
    let p := g.next st
    let r := PRNG.draw g k p.2
    (p.1 :: r.1, r.2)

/-- The notebook's reseed demonstration: seed with s, draw k values, then
seed with s again (discarding the advanced state) and draw k values.
Returns the two drawn sequences. -/
def reseedDemo {S O : Type} (g : PRNG S O) (s : ℕ) (k : ℕ) : List O × List O :=
  let st0 := g.seedState s
  let r1 := g.draw k st0
  let st1 := g.seedState s
  let r2 := g.draw k st1
  (r1.1, r2.1)

/-- A concrete linear congruential generator, standing in for an
arbitrary seeded generator in the concrete seed-7 demonstration. -/
def lcgDemo : PRNG ℕ ℕ :=
  ⟨fun s => s % 2 ^ 31,
   fun st =>
     let st2 := (1103515245 * st + 12345) % 2 ^ 31
     (st2, st2)⟩

/-- Claim C9: seeding a pseudorandom number generator with the same seed
reproduces the identical sequence: for any deterministic generator g,
seed s and count k, drawing k values after seeding with s and drawing k
values again after reseeding with s yields two identical sequences; in
particular for the notebook's demonstration seed 7 and k = 5. -/
theorem prng_reseed_reproduces :
    (∀ (S O : Type) (g : PRNG S O) (s k : ℕ),
        (reseedDemo g s k).1 = (reseedDemo g s k).2)
    ∧ (reseedDemo lcgDemo 7 5).1 = (reseedDemo lcgDemo 7 5).2
    ∧ (reseedDemo lcgDemo 7 5).1.length = 5 := by
  refine ⟨fun S O g s k => rfl, rfl, ?_⟩
  decide

/-- The combined module-level state of the two libraries: the Python
standard library generator state and the NumPy generator state. -/
structure DualState (S T : Type) where
  pyState : S
  npState : T

/-- Modelled from the spec: `random.seed` resets only the Python
standard-library generator state (the notebook: "seeding the Python
pseudorandom number generator does not impact the NumPy pseudorandom
number generator"). -/
def pySeed {S T O : Type} (gp : PRNG S O) (s : ℕ) (g : DualState S T) :
    DualState S T :=
  ⟨gp.seedState s, g.npState⟩

/-- Modelled from the spec: `numpy.random.seed` resets only the NumPy
generator state. -/
def npSeed {S T O : Type} (gn : PRNG T O) (s : ℕ) (g : DualState S T) :
    DualState S T :=
  ⟨g.pyState, gn.seedState s⟩

/-- Draw k values from the Python standard-library generator, stepping
only its component of the combined state. -/
def pyDraw {S T O : Type} (gp : PRNG S O) (k : ℕ) (g : DualState S T) :
    List O × DualState S T :=
  let r := gp.draw k g.pyState
  (r.1, ⟨r.2, g.npState⟩)

/-- Draw k values from the NumPy generator, stepping only its component
of the combined state. -/
def npDraw {S T O : Type} (gn : PRNG T O) (k : ℕ) (g : DualState S T) :
    List O × DualState S T :=
  let r := gn.draw k g.npState
  (r.1, ⟨g.pyState, r.2⟩)

/-- Claim C10: the Python standard-library generator and the NumPy
generator have separate, non-interfering state: seeding one has no effect
on the sequence the other produces, and the sequence drawn from a
generator right after seeding it depends only on its own seed, not on the
other generator's history — so each must be seeded independently for
reproducibility. -/
theorem prng_independent_states :
    (∀ (S T O P : Type) (gp : PRNG S O) (gn : PRNG T P) (s k : ℕ) (g : DualState S T),
        (npDraw gn k (pySeed gp s g)).1 = (npDraw gn k g).1)
    ∧ (∀ (S T O P : Type) (gp : PRNG S O) (gn : PRNG T P) (s k : ℕ) (g : DualState S T),
        (pyDraw gp k (npSeed gn s g)).1 = (pyDraw gp k g).1)
    ∧ (∀ (S T O P : Type) (gp : PRNG S O) (gn : PRNG T P) (s k : ℕ)
        (g g' : DualState S T),
        (npDraw gn k (npSeed gn s g)).1 = (npDraw gn k (npSeed gn s g')).1)
    ∧ (∀ (S T O P : Type) (gp : PRNG S O) (gn : PRNG T P) (s k : ℕ)
        (g g' : DualState S T),
        (pyDraw gp k (pySeed gp s g)).1 = (pyDraw gp k (pySeed gp s g')).1) :=
  ⟨fun S T O P gp gn s k g => rfl,
   fun S T O P gp gn s k g => rfl,
   fun S T O P gp gn s k g g' => rfl,
   fun S T O P gp gn s k g g' => rfl⟩

end AppliedML
